import Mathlib

/-!
# Verification of the buddy-exchange issue aggregation engine

Shallow embedding of the `GitHubAPI` class of `assets/js/github-api.js`
(the codecheckers/buddy-exchange repository) together with the label
constants of `assets/js/config.js`, and proofs about the four query
computations: the availability filter, the leaderboard aggregator, the
buddy-ratio aggregator and the certificate-identifier allocator, plus the
paginated fetch loop.

Conventions of the embedding:
* machine integers are `Nat`/`Int` (no overflow is reachable: all counters
  are small), JS float division in the buddy ratio is modelled exactly
  with `Rat`;
* `new Date()` (wall-clock reads) become an explicit `now : Nat` argument;
* `issue.closed_at` is modelled as an epoch number, since the code only
  compares closing dates;
* a JS array that may be `null`/`undefined` (`issue.assignees`) is
  modelled as a list, empty standing for both `null` and `[]` — the code
  only ever tests `!issue.assignees || issue.assignees.length === 0`;
* the JS object `userStats` (string keys, insertion order) is modelled as
  a list of records looked up by `username`, appended in insertion order,
  matching `Object.values` enumeration order;
* `Array.prototype.sort` (stable per the ECMAScript spec) is modelled by
  a stable insertion sort `sortBy`;
* network fetches become an oracle `pages : Nat → Except Nat (List Issue)`
  mapping a page number to its response, `Except.error s` standing for a
  non-success HTTP response with status `s` (the JS code throws there);
* title strings are handled as `List Char`.
-/

namespace BuddyExchange

/-! ## Configuration constants (`assets/js/config.js`) -/

/-- `BuddyExchangeConfig.labels.buddyExchange` -/
def buddyExchangeLabel : String := "buddy exchange"

/-- `BuddyExchangeConfig.labels.needsCodechecker` -/
def needsCodecheckerLabel : String := "needs codechecker"

/-! ## Data model -/

/-- A GitHub user object as used by the code (`login`, `avatar_url`, `html_url`). -/
structure User where
  login : String
  avatar_url : String
  html_url : String
deriving DecidableEq

/-- A GitHub label object; the code only reads `label.name`. -/
structure Label where
  name : String
deriving DecidableEq

/-- A GitHub issue record, restricted to the fields the engine reads. -/
structure Issue where
  number : Nat
  title : List Char
  state : String
  user : User
  assignee : Option User
  assignees : List User
  labels : List Label
  closed_at : Nat
deriving DecidableEq

/-- `s.toLowerCase()` of JS, on the underlying character list. -/
def jsToLower (s : String) : String := String.mk (s.data.map Char.toLower)

/-- `issue.labels.some(label => label.name.toLowerCase() === target.toLowerCase())`. -/
def hasLabel (issue : Issue) (target : String) : Bool :=
  issue.labels.any fun l => jsToLower l.name == jsToLower target

/-- `!issue.assignee && (!issue.assignees || issue.assignees.length === 0)`. -/
def isUnassigned (issue : Issue) : Bool :=
  issue.assignee == none && issue.assignees.isEmpty

/-! ## Availability filter (`GitHubAPI.filterAvailableIssues`)

The repository holds two revisions of `filterAvailableIssues` that
disagree on whether the "buddy exchange" label is mandatory.  The
variant without that requirement — the behaviour the spec's testable
properties state — is embedded as `filterAvailableIssues`; the variant
that also demands the "buddy exchange" label as
`filterAvailableIssuesV1`. -/

/-- Include when labelled "needs codechecker" (regardless of assignment),
otherwise include exactly the unassigned issues. -/
def filterAvailableIssues (issues : List Issue) : List Issue :=
  issues.filter fun issue =>
    if hasLabel issue needsCodecheckerLabel then true
    else isUnassigned issue

/-- The other revision: additionally reject any issue lacking the
"buddy exchange" label. -/
def filterAvailableIssuesV1 (issues : List Issue) : List Issue :=
  issues.filter fun issue =>
    if !hasLabel issue buddyExchangeLabel then false
    else if hasLabel issue needsCodecheckerLabel then true
    else isUnassigned issue

/-! ## Stable sorting (model of `Array.prototype.sort`) -/

/-- Insert `a` before the first element `b` with `le a b`. -/
def insertBy (le : α → α → Bool) (a : α) : List α → List α
  | [] => [a]
  | b :: t => if le a b then a :: b :: t else b :: insertBy le a t

/-- Stable insertion sort; models the (stable) `Array.prototype.sort`. -/
def sortBy (le : α → α → Bool) : List α → List α
  | [] => []
  | a :: t => insertBy le a (sortBy le t)

/-! ## Leaderboard aggregator (`GitHubAPI.calculateLeaderboard`) -/

/-- One value of the `userStats` object of `calculateLeaderboard`. -/
structure UserStat where
  username : String
  avatar : String
  url : String
  completedCount : Nat
  lastCompleted : Option Nat
  completedIssues : List Nat
deriving DecidableEq

/-- The fresh record created when `!userStats[username]`. -/
def newUserStat (login avatar url : String) : UserStat :=
  { username := login, avatar := avatar, url := url,
    completedCount := 0, lastCompleted := none, completedIssues := [] }

/-- `if (!userStats[username]) userStats[username] = {...}` — JS objects
enumerate string keys in insertion order, hence the append. -/
def ensureUser (stats : List UserStat) (login avatar url : String) : List UserStat :=
  if login ∈ stats.map UserStat.username then stats
  else stats ++ [newUserStat login avatar url]

/-- `if (!lastCompleted || closedDate > lastCompleted) lastCompleted = closedDate`. -/
def bumpLastCompleted (old : Option Nat) (closedDate : Nat) : Option Nat :=
  match old with
  | none => some closedDate
  | some d => if d < closedDate then some closedDate else some d

/-- The per-credit update of one `userStats` entry: bump the counter,
push the issue number, refresh `lastCompleted`. -/
def creditStat (s : UserStat) (num closedDate : Nat) : UserStat :=
  { s with completedCount := s.completedCount + 1,
           completedIssues := s.completedIssues ++ [num],
           lastCompleted := bumpLastCompleted s.lastCompleted closedDate }

/-- Apply `creditStat` to the entry keyed by `login`. -/
def creditUser (stats : List UserStat) (login : String) (num closedDate : Nat) :
    List UserStat :=
  stats.map fun s => if s.username = login then creditStat s num closedDate else s

/-- `issue.assignee || (issue.assignees && issue.assignees.length > 0)`. -/
def hasAssignees (issue : Issue) : Bool :=
  issue.assignee.isSome || !issue.assignees.isEmpty

/-- `!issue.assignee || issue.assignee.login !== username` — the guard that
avoids double-counting a user present both as `assignee` and in
`assignees`. -/
def canCredit (primary : Option User) (login : String) : Bool :=
  match primary with
  | some p => p.login != login
  | none => true

/-- Body of the `issue.assignees.forEach(assignee => ...)` loop. -/
def creditAssignee (primary : Option User) (num closedDate : Nat)
    (stats : List UserStat) (a : User) : List UserStat :=
  let stats := ensureUser stats a.login a.avatar_url a.html_url
  if canCredit primary a.login then creditUser stats a.login num closedDate else stats

/-- Credit bookkeeping of the primary `issue.assignee`, when present. -/
def creditPrimary (stats : List UserStat) (issue : Issue) : List UserStat :=
  match issue.assignee with
  | some p =>
      creditUser (ensureUser stats p.login p.avatar_url p.html_url)
        p.login issue.number issue.closed_at
  | none => stats

/-- Body of the `closedIssues.forEach(issue => ...)` loop; the second
component is the running `totalCompleted` counter. -/
def leaderboardStep (acc : List UserStat × Nat) (issue : Issue) :
    List UserStat × Nat :=
  if hasAssignees issue then
    (issue.assignees.foldl
        (creditAssignee issue.assignee issue.number issue.closed_at)
        (creditPrimary acc.1 issue),
      acc.2 + 1)
  else acc

/-- `b.completedCount - a.completedCount` comparator, as a `≤` test. -/
def statDescLe (a b : UserStat) : Bool := decide (b.completedCount ≤ a.completedCount)

/-- Result record of `calculateLeaderboard`.  The per-user `searchUrl`
field added by the code is a fixed string function of `username` consumed
only by the presentation layer and is not modelled. -/
structure Leaderboard where
  leaderboard : List UserStat
  totalCompleted : Nat
  activeContributors : Nat
  lastUpdated : Nat
deriving DecidableEq

/-- `GitHubAPI.calculateLeaderboard`; `now` is the value of `new Date()`. -/
def calculateLeaderboard (closedIssues : List Issue) (now : Nat) : Leaderboard :=
  let acc := closedIssues.foldl leaderboardStep ([], 0)
  let lb := sortBy statDescLe acc.1
  { leaderboard := lb, totalCompleted := acc.2,
    activeContributors := lb.length, lastUpdated := now }

/-- The timestamp-free fields of a leaderboard result. -/
def leaderboardData (r : Leaderboard) : List UserStat × Nat × Nat :=
  (r.leaderboard, r.totalCompleted, r.activeContributors)

/-- The two invariants claimed for a leaderboard entry: the counter
matches the list of completed issue numbers, which holds no duplicate. -/
def goodStat (e : UserStat) : Prop :=
  e.completedCount = e.completedIssues.length ∧ e.completedIssues.Nodup

/-! ## Buddy-ratio aggregator (`GitHubAPI.calculateBuddyRatios`) -/

/-- One value of the `userStats` object of `calculateBuddyRatios`. -/
structure BuddyStat where
  username : String
  avatar : String
  url : String
  receivedChecks : Nat
  conductedChecks : Nat
  receivedIssues : List Nat
  conductedIssues : List Nat
deriving DecidableEq

/-- The fresh record created when `!userStats[login]`. -/
def newBuddyStat (login avatar url : String) : BuddyStat :=
  { username := login, avatar := avatar, url := url,
    receivedChecks := 0, conductedChecks := 0,
    receivedIssues := [], conductedIssues := [] }

/-- Insertion-ordered creation of a missing `userStats` entry. -/
def ensureBuddy (stats : List BuddyStat) (login avatar url : String) : List BuddyStat :=
  if login ∈ stats.map BuddyStat.username then stats
  else stats ++ [newBuddyStat login avatar url]

/-- `userStats[creator].receivedChecks++` plus the issue-number push. -/
def creditReceived (stats : List BuddyStat) (login : String) (num : Nat) : List BuddyStat :=
  stats.map fun s =>
    if s.username = login then
      { s with receivedChecks := s.receivedChecks + 1,
               receivedIssues := s.receivedIssues ++ [num] }
    else s

/-- `userStats[assignee].conductedChecks++` plus the issue-number push. -/
def creditConducted (stats : List BuddyStat) (login : String) (num : Nat) : List BuddyStat :=
  stats.map fun s =>
    if s.username = login then
      { s with conductedChecks := s.conductedChecks + 1,
               conductedIssues := s.conductedIssues ++ [num] }
    else s

/-- Pass 1 body: every issue credits a received check to its author. -/
def receivedStep (stats : List BuddyStat) (issue : Issue) : List BuddyStat :=
  creditReceived
    (ensureBuddy stats issue.user.login issue.user.avatar_url issue.user.html_url)
    issue.user.login issue.number

/-- Pass 2 inner loop body over `issue.assignees`, with the same
primary-assignee dedup guard as the leaderboard. -/
def conductAssignee (primary : Option User) (num : Nat)
    (stats : List BuddyStat) (a : User) : List BuddyStat :=
  let stats := ensureBuddy stats a.login a.avatar_url a.html_url
  if canCredit primary a.login then creditConducted stats a.login num else stats

/-- Pass 2 body: a closed issue with assignees credits a conducted check
to each distinct assignee. -/
def conductedStep (stats : List BuddyStat) (issue : Issue) : List BuddyStat :=
  if issue.state == "closed" && hasAssignees issue then
    let stats :=
      match issue.assignee with
      | some p =>
          creditConducted (ensureBuddy stats p.login p.avatar_url p.html_url)
            p.login issue.number
      | none => stats
    issue.assignees.foldl (conductAssignee issue.assignee issue.number) stats
  else stats

/-- An element of `allRecipients`: a `BuddyStat` spread together with the
computed `ratio` and `deficit` fields (the `searchUrl` string added for
the presentation layer is not modelled). -/
structure BuddyRecipient where
  username : String
  avatar : String
  url : String
  receivedChecks : Nat
  conductedChecks : Nat
  receivedIssues : List Nat
  conductedIssues : List Nat
  ratio : Rat
  deficit : Int
deriving DecidableEq

/-- `{...user, ratio: received / Math.max(conducted, 1), deficit: received - conducted}`.
JS number division is modelled exactly by rational division. -/
def toRecipient (s : BuddyStat) : BuddyRecipient :=
  { username := s.username, avatar := s.avatar, url := s.url,
    receivedChecks := s.receivedChecks, conductedChecks := s.conductedChecks,
    receivedIssues := s.receivedIssues, conductedIssues := s.conductedIssues,
    ratio := (s.receivedChecks : Rat) / ((max s.conductedChecks 1 : Nat) : Rat),
    deficit := (s.receivedChecks : Int) - (s.conductedChecks : Int) }

/-- `b.ratio - a.ratio` comparator, as a `≤` test. -/
def ratioDescLe (a b : BuddyRecipient) : Bool := decide (b.ratio ≤ a.ratio)

/-- Result record of `calculateBuddyRatios`. -/
structure BuddyReport where
  allRecipients : List BuddyRecipient
  totalUsers : Nat
  totalIssues : Nat
  lastUpdated : Nat
deriving DecidableEq

/-- `GitHubAPI.calculateBuddyRatios`; `now` is the value of `new Date()`. -/
def calculateBuddyRatios (allIssues : List Issue) (now : Nat) : BuddyReport :=
  let stats := allIssues.foldl conductedStep (allIssues.foldl receivedStep [])
  let allRecipients :=
    sortBy ratioDescLe
      (((stats.filter fun s => decide (0 < s.receivedChecks)).map toRecipient))
  { allRecipients := allRecipients, totalUsers := stats.length,
    totalIssues := allIssues.length, lastUpdated := now }

/-- The timestamp-free fields of a buddy report. -/
def buddyReportData (r : BuddyReport) : List BuddyRecipient × Nat × Nat :=
  (r.allRecipients, r.totalUsers, r.totalIssues)

/-! ## Identifier extraction (`GitHubAPI.extractCertificateIdentifiers`)

The regex patterns tried in priority order are all of one of two fixed
shapes: `\d{4}-\d{k}` (a four-digit year, a dash, a `k`-digit suffix) and
`\d{k}` (a bare `k`-digit number).  A global regex match collects the
successive leftmost non-overlapping matches, each pattern here being of
fixed length. -/

/-- The two shapes of the title patterns. -/
inductive Pat where
  | dashed : Nat → Pat
  | bare : Nat → Pat
deriving DecidableEq

/-- Length of a match of the pattern. -/
def Pat.len : Pat → Nat
  | .dashed k => 5 + k
  | .bare k => k

/-- All characters are decimal digits. -/
def allDigits (cs : List Char) : Bool := cs.all Char.isDigit

/-- Does the pattern match at the very start of `cs`? -/
def matchesAt : Pat → List Char → Bool
  | .bare k, cs => decide (k ≤ cs.length) && allDigits (cs.take k)
  | .dashed k, cs =>
      decide (5 + k ≤ cs.length) && allDigits (cs.take 4)
        && (cs.getD 4 ' ' == '-') && allDigits ((cs.drop 5).take k)

/-- Left-to-right scan collecting the non-overlapping matches of a fixed
pattern, the semantics of `title.match(/pattern/g)`.  The fuel is the
length of the residual string: every step consumes at least one
character, so `cs.length` fuel is exact. -/
def scanPatAux (p : Pat) : Nat → List Char → List (List Char)
  | 0, _ => []
  | _ + 1, [] => []
  | fuel + 1, c :: rest =>
      if matchesAt p (c :: rest) then
        (c :: rest).take p.len :: scanPatAux p fuel ((c :: rest).drop (max p.len 1))
      else scanPatAux p fuel rest

/-- `title.match(pattern)` for a global fixed-shape pattern (`[]` stands
for the `null` no-match result). -/
def scanPat (p : Pat) (cs : List Char) : List (List Char) := scanPatAux p cs.length cs

/-- The pattern list of `extractCertificateIdentifiers`, in the exact
priority order of the source. -/
def patterns : List Pat :=
  [Pat.dashed 3, Pat.dashed 2, Pat.dashed 1, Pat.bare 3, Pat.bare 2, Pat.bare 1]

/-- Decimal value of a digit string, the value `parseInt` returns on an
all-digit prefix. -/
def digitsToNat (ds : List Char) : Nat :=
  ds.foldl (fun n c => n * 10 + (c.toNat - 48)) 0

/-- `parseInt(s)` restricted to the inputs arising here (a string whose
usable prefix is its leading digit run); `none` models the `NaN` result
on a string without leading digits. -/
def parseIntOpt (cs : List Char) : Option Nat :=
  let ds := cs.takeWhile Char.isDigit
  if ds.isEmpty then none else some (digitsToNat ds)

/-- `match.split('-')[1]` for a match containing a single dash: the
characters after the first dash. -/
def afterDash (cs : List Char) : List Char :=
  (cs.dropWhile fun c => c != '-').drop 1

/-- The number extracted from one match: the suffix after the dash for a
dashed match (`match.includes('-')`), else the whole number. -/
def extractedNumber (m : List Char) : Option Nat :=
  if '-' ∈ m then parseIntOpt (afterDash m) else parseIntOpt m

/-- One match contributes its number iff the parse succeeded and
`0 < number < 10000`. -/
def keepNumber (m : List Char) : Option Nat :=
  match extractedNumber m with
  | some n => if 0 < n && n < 10000 then some n else none
  | none => none

/-- The `for (const pattern of patterns)` loop: the first pattern with a
non-empty match list contributes all its matches and the loop breaks. -/
def firstPatMatches : List Pat → List Char → List Nat
  | [], _ => []
  | p :: ps, title =>
      let ms := scanPat p title
      if ms.isEmpty then firstPatMatches ps title
      else ms.filterMap keepNumber

/-- `[...new Set(identifiers)]`: deduplication keeping first occurrences,
with an accumulator of already-seen values. -/
def dedupFirst (seen : List Nat) : List Nat → List Nat
  | [] => []
  | a :: rest =>
      if a ∈ seen then dedupFirst seen rest else a :: dedupFirst (a :: seen) rest

/-- Ascending comparator `(a, b) => a - b`, as a `≤` test. -/
def natLe (a b : Nat) : Bool := decide (a ≤ b)

/-- `GitHubAPI.extractCertificateIdentifiers`. -/
def extractCertificateIdentifiers (issues : List Issue) : List Nat :=
  let identifiers := (issues.map fun issue => firstPatMatches patterns issue.title).flatten
  sortBy natLe (dedupFirst [] identifiers)

/-! ## Identifier allocation (`GitHubAPI.calculateNextIdentifier`) -/

/-- `existingIdentifiers[existingIdentifiers.length - 1]`. -/
def lastEntry (l : List Nat) : Nat := l.getD (l.length - 1) 0

/-- The `for (let i = 1; i <= last + 1; i++)` gap scan: return the first
`i` not in the list; the fuel counts the remaining admissible values of
`i`, and exhausting it is the fall-through `return last + 1`. -/
def scanGap (U : List Nat) : Nat → Nat → Nat
  | _, 0 => lastEntry U + 1
  | i, fuel + 1 => if i ∈ U then scanGap U (i + 1) fuel else i

/-- `GitHubAPI.calculateNextIdentifier`. -/
def calculateNextIdentifier (existingIdentifiers : List Nat) : Nat :=
  if existingIdentifiers.isEmpty then 1
  else scanGap existingIdentifiers 1 (lastEntry existingIdentifiers + 1)

/-! ## Paginated fetch (`GitHubAPI.fetchAllIssues`,
`fetchClosedBuddyExchangeIssues`, `fetchAllBuddyExchangeIssues`)

The three fetchers share one `while (page <= maxPages)` loop differing
only in the request URL, which is abstracted into the response oracle
`pages : Nat → Except Nat (List Issue)` (error = non-success HTTP status,
on which the JS code throws, discarding the accumulator).  The first
component of the result is the trace of page numbers actually requested.
The fuel counts the remaining admissible pages (`maxPages - page + 1`),
so fuel `0` is exactly the `page > maxPages` loop exit. -/

def fetchPagesAux (pages : Nat → Except Nat (List Issue)) (perPage : Nat) :
    Nat → Nat → List Issue → List Nat × Except Nat (List Issue)
  | _, 0, acc => ([], Except.ok acc)
  | page, fuel + 1, acc =>
      match pages page with
      | Except.error s => ([page], Except.error s)
      | Except.ok issues =>
          if issues.length = 0 then ([page], Except.ok acc)
          else if issues.length < perPage then ([page], Except.ok (acc ++ issues))
          else
            let r := fetchPagesAux pages perPage (page + 1) fuel (acc ++ issues)
            (page :: r.1, r.2)

/-- The issue list (or fetch error) produced by the shared pagination
loop, starting at page 1. -/
def fetchAllIssues (pages : Nat → Except Nat (List Issue))
    (perPage maxPages : Nat) : Except Nat (List Issue) :=
  (fetchPagesAux pages perPage 1 maxPages []).2

/-- `fetchClosedBuddyExchangeIssues`: the identical loop, the closed-issue
query URL being part of the oracle. -/
def fetchClosedBuddyExchangeIssues (pages : Nat → Except Nat (List Issue))
    (perPage maxPages : Nat) : Except Nat (List Issue) :=
  (fetchPagesAux pages perPage 1 maxPages []).2

/-- The trace of page numbers requested by the pagination loop. -/
def fetchRequestedPages (pages : Nat → Except Nat (List Issue))
    (perPage maxPages : Nat) : List Nat :=
  (fetchPagesAux pages perPage 1 maxPages []).1

/-! ## Concrete demonstration data -/

def userAlice : User := { login := "alice", avatar_url := "", html_url := "" }

def userBob : User := { login := "bob", avatar_url := "", html_url := "" }

def userCarol : User := { login := "carol", avatar_url := "", html_url := "" }

/-- Open issue carrying "needs codechecker" with two assignees. -/
def issueNC2 : Issue :=
  { number := 1, title := [], state := "open", user := userCarol,
    assignee := some userAlice, assignees := [userAlice, userBob],
    labels := [{ name := "needs codechecker" }], closed_at := 0 }

/-- Open issue without "needs codechecker", with one assignee. -/
def issueOne : Issue :=
  { number := 2, title := [], state := "open", user := userCarol,
    assignee := some userAlice, assignees := [userAlice],
    labels := [{ name := "buddy exchange" }], closed_at := 0 }

/-- Open issue with no labels and no assignees. -/
def issuePlain : Issue :=
  { number := 3, title := [], state := "open", user := userCarol,
    assignee := none, assignees := [], labels := [], closed_at := 0 }

def demoOpenIssues : List Issue := [issueNC2, issueOne, issuePlain]

/-- Closed issue whose `assignees` array lists the same login twice. -/
def issueDupAssignees : Issue :=
  { number := 7, title := [], state := "closed", user := userCarol,
    assignee := none, assignees := [userAlice, userAlice],
    labels := [], closed_at := 0 }

/-- Well-formed closed issue with a primary assignee repeated in the
`assignees` array plus one further assignee. -/
def issuePair : Issue :=
  { number := 4, title := [], state := "closed", user := userCarol,
    assignee := some userAlice, assignees := [userAlice, userBob],
    labels := [], closed_at := 5 }

/-- Well-formed closed issue with a single assignee. -/
def issueSolo : Issue :=
  { number := 5, title := [], state := "closed", user := userCarol,
    assignee := some userBob, assignees := [userBob],
    labels := [], closed_at := 9 }

def demoClosedIssues : List Issue := [issuePair, issueSolo]

/-- An open issue authored by `u`, unassigned. -/
def authoredOpen (u : User) (n : Nat) : Issue :=
  { number := n, title := [], state := "open", user := u,
    assignee := none, assignees := [], labels := [], closed_at := 0 }

/-- A closed issue authored by and assigned to `u`. -/
def selfClosed (u : User) (n : Nat) : Issue :=
  { number := n, title := [], state := "closed", user := u,
    assignee := some u, assignees := [u], labels := [], closed_at := 0 }

/-- alice authored three open issues and conducted no checks; bob
authored two issues and conducted the two checks closing them. -/
def demoBuddyIssues : List Issue :=
  [authoredOpen userAlice 11, authoredOpen userAlice 12, authoredOpen userAlice 13,
   selfClosed userBob 14, selfClosed userBob 15]

/-- An issue whose title is the given string. -/
def certIssue (t : String) (n : Nat) : Issue :=
  { number := n, title := t.toList, state := "open", user := userCarol,
    assignee := none, assignees := [], labels := [], closed_at := 0 }

def certDemoIssues : List Issue :=
  [certIssue "2025-001" 21, certIssue "2025-002" 22, certIssue "2025-004" 23]

/-- A page oracle: page 1 holds a full page of two issues, every further
request is a 403 response. -/
def demoPages : Nat → Except Nat (List Issue) := fun p =>
  if p = 1 then Except.ok [authoredOpen userCarol 31, authoredOpen userCarol 32]
  else Except.error 403

/-- The `userStats` value the two buddy passes reach on
`demoBuddyIssues` for alice. -/
def statAlice : BuddyStat :=
  { username := "alice", avatar := "", url := "",
    receivedChecks := 3, conductedChecks := 0,
    receivedIssues := [11, 12, 13], conductedIssues := [] }

/-- The `userStats` value the two buddy passes reach on
`demoBuddyIssues` for bob. -/
def statBob : BuddyStat :=
  { username := "bob", avatar := "", url := "",
    receivedChecks := 2, conductedChecks := 2,
    receivedIssues := [14, 15], conductedIssues := [14, 15] }

/-- The top leaderboard entry `calculateLeaderboard` produces on
`demoClosedIssues`: bob completed issues 4 and 5. -/
def lbBob : UserStat :=
  { username := "bob", avatar := "", url := "",
    completedCount := 2, lastCompleted := some 9, completedIssues := [4, 5] }

end BuddyExchange

namespace BuddyExchange

/-! ### Basic facts about the helper functions -/

theorem mem_insertBy (le : α → α → Bool) (a x : α) (l : List α) :
    x ∈ insertBy le a l ↔ x = a ∨ x ∈ l := by
  induction l with
  | nil => simp [insertBy]
  | cons b t ih =>
      by_cases h : le a b = true
      · simp [insertBy, h]
      · simp only [insertBy, h, if_false, Bool.false_eq_true, if_neg, List.mem_cons, ih]
        tauto

theorem mem_sortBy (le : α → α → Bool) (x : α) (l : List α) :
    x ∈ sortBy le l ↔ x ∈ l := by
  induction l with
  | nil => simp [sortBy]
  | cons a t ih => simp [sortBy, mem_insertBy, ih]

/-! ### Claim C4: totalCompleted counts qualifying issues once each -/

theorem totalCompleted_foldl (issues : List Issue) (stats : List UserStat) (c : Nat) :
    (issues.foldl leaderboardStep (stats, c)).2 = c + issues.countP hasAssignees := by
  induction issues generalizing stats c with
  | nil => simp
  | cons i rest ih =>
      rw [List.foldl_cons, List.countP_cons]
      by_cases h : hasAssignees i = true
      · rw [leaderboardStep, if_pos h, ih, h]
        simp
        omega
      · rw [leaderboardStep, if_neg h, ih]
        rw [Bool.not_eq_true] at h
        rw [h]
        simp

/-- Claim C4: for every input list of closed issues, the `totalCompleted`
value returned by `calculateLeaderboard` equals the number of issues in
the list that have at least one assignee (legacy singular `assignee`
field or non-empty `assignees` array), counted once per such issue no
matter how many assignees it has. -/
theorem C4_totalCompleted (issues : List Issue) (now : Nat) :
    (calculateLeaderboard issues now).totalCompleted
      = issues.countP (fun i => i.assignee.isSome || !i.assignees.isEmpty) := by
  have h : (fun i : Issue => i.assignee.isSome || !i.assignees.isEmpty) = hasAssignees := rfl
  rw [h]
  simpa [calculateLeaderboard] using totalCompleted_foldl issues [] 0

/-! ### Claim C1: behaviour of the availability filter -/

/-- Claim C1: in every list of open issues, the availability filter
includes an issue carrying the "needs codechecker" label even when it
has two assignees, excludes an issue lacking that label which has one
assignee, and includes an issue with no labels and no assignees. -/
theorem C1_availability_filter (issues : List Issue) (issue : Issue)
    (hmem : issue ∈ issues) :
    (hasLabel issue needsCodecheckerLabel = true → issue.assignees.length = 2 →
        issue ∈ filterAvailableIssues issues) ∧
    (hasLabel issue needsCodecheckerLabel = false → issue.assignees.length = 1 →
        issue ∉ filterAvailableIssues issues) ∧
    (issue.labels = [] → issue.assignee = none → issue.assignees = [] →
        issue ∈ filterAvailableIssues issues) := by
  refine ⟨fun h _ => ?_, fun h hlen hin => ?_, fun hl ha hs => ?_⟩
  · rw [filterAvailableIssues, List.mem_filter]
    exact ⟨hmem, by simp [h]⟩
  · rw [filterAvailableIssues, List.mem_filter] at hin
    have hp := hin.2
    rw [h] at hp
    simp [isUnassigned] at hp
    rw [hp.2] at hlen
    simp at hlen
  · have h : hasLabel issue needsCodecheckerLabel = false := by
      simp [hasLabel, hl]
    rw [filterAvailableIssues, List.mem_filter]
    refine ⟨hmem, ?_⟩
    rw [h]
    simp [isUnassigned, ha, hs]

/-- Witness for C1: the three behaviours at a concrete three-issue
snapshot. -/
theorem C1_availability_filter_witness :
    issueNC2 ∈ filterAvailableIssues demoOpenIssues ∧
    issueOne ∉ filterAvailableIssues demoOpenIssues ∧
    issuePlain ∈ filterAvailableIssues demoOpenIssues := by
  refine ⟨?_, ?_, ?_⟩
  · exact (C1_availability_filter demoOpenIssues issueNC2
      (by decide)).1 (by decide) (by decide)
  · exact (C1_availability_filter demoOpenIssues issueOne
      (by decide)).2.1 (by decide) (by decide)
  · exact (C1_availability_filter demoOpenIssues issuePlain
      (by decide)).2.2 rfl rfl rfl

/-! ### Claim C3: repeated queries on one snapshot -/

/-- Claim C3 counterexample: the leaderboard query embeds the wall clock
(`lastUpdated: new Date()`), so two calls on the same (here: empty)
snapshot at two clock readings are not byte-identical. -/
theorem C3_counterexample : calculateLeaderboard [] 0 ≠ calculateLeaderboard [] 1 := by
  decide

/-- Claim C3 (amended): on a fixed snapshot, the availability filter and
the identifier allocation are identical across repeated calls, and the
leaderboard and buddy report agree on every field except the
`lastUpdated` timestamp, which records the clock at each call. -/
theorem C3_idempotence (openIssues closedIssues allIssues : List Issue) (t1 t2 : Nat) :
    filterAvailableIssues openIssues = filterAvailableIssues openIssues ∧
    leaderboardData (calculateLeaderboard closedIssues t1)
      = leaderboardData (calculateLeaderboard closedIssues t2) ∧
    buddyReportData (calculateBuddyRatios allIssues t1)
      = buddyReportData (calculateBuddyRatios allIssues t2) ∧
    calculateNextIdentifier (extractCertificateIdentifiers allIssues)
      = calculateNextIdentifier (extractCertificateIdentifiers allIssues) :=
  ⟨rfl, rfl, rfl, rfl⟩

/-! ### Claim C2: leaderboard entry invariants

The per-issue crediting pushes the issue number once per distinct
credited assignee.  The code dedups a user present both as `assignee`
and inside `assignees`, but not a login repeated inside the `assignees`
array — hence the counterexample — and the invariant is recovered under
the well-formedness GitHub guarantees: distinct issue numbers and
distinct assignee logins per issue. -/

theorem good_creditStat {e : UserStat} {num t : Nat}
    (hg : goodStat e) (hn : num ∉ e.completedIssues) :
    goodStat (creditStat e num t) := by
  obtain ⟨h1, h2⟩ := hg
  constructor
  · simp [creditStat, h1]
  · simp [creditStat, List.nodup_append, h2, hn]

theorem mem_creditUser {stats : List UserStat} {login : String} {num t : Nat}
    {e : UserStat} (he : e ∈ creditUser stats login num t) :
    ∃ s ∈ stats, e = if s.username = login then creditStat s num t else s := by
  simp only [creditUser, List.mem_map] at he
  obtain ⟨s, hs, h⟩ := he
  exact ⟨s, hs, h.symm⟩

theorem mem_ensureUser {stats : List UserStat} {login av url : String}
    {e : UserStat} (he : e ∈ ensureUser stats login av url) :
    e ∈ stats ∨ e = newUserStat login av url := by
  rw [ensureUser] at he
  split at he
  · exact Or.inl he
  · rcases List.mem_append.1 he with h | h
    · exact Or.inl h
    · simp only [List.mem_singleton] at h
      exact Or.inr h

theorem ensureCredit_inv (stats : List UserStat) (login av url : String) (num t : Nat)
    (B : String → Prop)
    (hpre : ∀ e ∈ stats, goodStat e ∧ (num ∈ e.completedIssues → B e.username))
    (hlog : ¬ B login) :
    ∀ e ∈ creditUser (ensureUser stats login av url) login num t,
      goodStat e ∧ (num ∈ e.completedIssues → e.username = login ∨ B e.username) := by
  intro e he
  obtain ⟨s, hs, hse⟩ := mem_creditUser he
  rcases mem_ensureUser hs with hs' | rfl
  · by_cases hu : s.username = login
    · rw [if_pos hu] at hse
      subst hse
      have hnum : num ∉ s.completedIssues := fun hm => hlog (hu ▸ (hpre s hs').2 hm)
      exact ⟨good_creditStat (hpre s hs').1 hnum,
        fun _ => Or.inl (by simp [creditStat, hu])⟩
    · rw [if_neg hu] at hse
      rw [hse]
      exact ⟨(hpre s hs').1, fun hm => Or.inr ((hpre s hs').2 hm)⟩
  · have hcond : (newUserStat login av url).username = login := rfl
    rw [if_pos hcond] at hse
    rw [hse]
    refine ⟨⟨?_, ?_⟩, fun _ => Or.inl rfl⟩
    · simp [creditStat, newUserStat]
    · simp [creditStat, newUserStat]

theorem foldAssignees_good (primary : Option User) (num t : Nat) :
    ∀ (l : List User) (stats : List UserStat),
      (l.map User.login).Nodup →
      (∀ e ∈ stats, goodStat e ∧ (num ∈ e.completedIssues →
          e.username ∉ l.map User.login ∨ canCredit primary e.username = false)) →
      ∀ e ∈ l.foldl (creditAssignee primary num t) stats, goodStat e := by
  intro l
  induction l with
  | nil => exact fun stats _ h e he => (h e (by simpa using he)).1
  | cons a rest ih =>
      intro stats hnd h e he
      rw [List.foldl_cons] at he
      have hnd0 : a.login ∉ rest.map User.login ∧ (rest.map User.login).Nodup :=
        List.nodup_cons.1 (by simpa using hnd)
      refine ih (creditAssignee primary num t stats a) hnd0.2 ?_ e he
      intro e' he'
      by_cases hc : canCredit primary a.login = true
      · have he'' : e' ∈ creditUser (ensureUser stats a.login a.avatar_url a.html_url)
            a.login num t := by
          simpa [creditAssignee, hc] using he'
        obtain ⟨hg, himp⟩ := ensureCredit_inv stats a.login a.avatar_url a.html_url num t
          (fun u => u ∉ (a :: rest).map User.login ∨ canCredit primary u = false)
          h (fun hcon => by
            rcases hcon with h1 | h2
            · exact h1 (by simp)
            · simp [hc] at h2) e' he''
        refine ⟨hg, fun hm => ?_⟩
        rcases himp hm with heq | hnotin | hcc
        · exact Or.inl (heq ▸ hnd0.1)
        · exact Or.inl fun hin => hnotin (by simpa using Or.inr hin)
        · exact Or.inr hcc
      · have he'' : e' ∈ ensureUser stats a.login a.avatar_url a.html_url := by
          simpa [creditAssignee, hc] using he'
        rcases mem_ensureUser he'' with h0 | rfl
        · refine ⟨(h e' h0).1, fun hm => ?_⟩
          rcases (h e' h0).2 hm with hnotin | hcc
          · exact Or.inl fun hin => hnotin (by simpa using Or.inr hin)
          · exact Or.inr hcc
        · refine ⟨⟨rfl, List.nodup_nil⟩, fun hm => ?_⟩
          simp [newUserStat] at hm

theorem creditPrimary_good (issue : Issue) (stats : List UserStat)
    (h : ∀ e ∈ stats, goodStat e ∧ issue.number ∉ e.completedIssues) :
    ∀ e ∈ creditPrimary stats issue,
      goodStat e ∧ (issue.number ∈ e.completedIssues →
        canCredit issue.assignee e.username = false) := by
  intro e he
  cases hass : issue.assignee with
  | none =>
      simp only [creditPrimary, hass] at he
      exact ⟨(h e he).1, fun hm => absurd hm (h e he).2⟩
  | some p =>
      simp only [creditPrimary, hass] at he
      obtain ⟨hg, himp⟩ := ensureCredit_inv stats p.login p.avatar_url p.html_url
        issue.number issue.closed_at (fun _ => False)
        (fun e0 he0 => ⟨(h e0 he0).1, fun hm => (h e0 he0).2 hm⟩)
        (fun f => f) e he
      refine ⟨hg, fun hm => ?_⟩
      rcases himp hm with heq | hf
      · simp [canCredit, heq]
      · exact hf.elim

theorem leaderboardStep_good (issue : Issue) (stats : List UserStat) (c : Nat)
    (hnd : (issue.assignees.map User.login).Nodup)
    (h : ∀ e ∈ stats, goodStat e ∧ issue.number ∉ e.completedIssues) :
    ∀ e ∈ (leaderboardStep (stats, c) issue).1, goodStat e := by
  by_cases ha : hasAssignees issue = true
  · rw [leaderboardStep, if_pos ha]
    intro e he
    simp only at he
    refine foldAssignees_good issue.assignee issue.number issue.closed_at
      issue.assignees (creditPrimary stats issue) hnd ?_ e he
    intro e0 he0
    obtain ⟨hg, himp⟩ := creditPrimary_good issue stats h e0 he0
    exact ⟨hg, fun hm => Or.inr (himp hm)⟩
  · rw [leaderboardStep, if_neg ha]
    exact fun e he => (h e he).1

theorem prov_creditUser {stats : List UserStat} {login : String} {num t : Nat}
    {e : UserStat} (he : e ∈ creditUser stats login num t) :
    ∀ m ∈ e.completedIssues, m = num ∨ ∃ s ∈ stats, m ∈ s.completedIssues := by
  intro m hm
  obtain ⟨s, hs, hse⟩ := mem_creditUser he
  by_cases hu : s.username = login
  · rw [if_pos hu] at hse
    subst hse
    simp only [creditStat, List.mem_append, List.mem_singleton] at hm
    rcases hm with hm | hm
    · exact Or.inr ⟨s, hs, hm⟩
    · exact Or.inl hm
  · rw [if_neg hu] at hse
    rw [hse] at hm
    exact Or.inr ⟨s, hs, hm⟩

theorem prov_ensureUser {stats : List UserStat} {login av url : String}
    {e : UserStat} (he : e ∈ ensureUser stats login av url) :
    ∀ m ∈ e.completedIssues, ∃ s ∈ stats, m ∈ s.completedIssues := by
  intro m hm
  rcases mem_ensureUser he with h | rfl
  · exact ⟨e, h, hm⟩
  · simp [newUserStat] at hm

theorem prov_creditAssignee {primary : Option User} {num t : Nat}
    {stats : List UserStat} {a : User} {e : UserStat}
    (he : e ∈ creditAssignee primary num t stats a) :
    ∀ m ∈ e.completedIssues, m = num ∨ ∃ s ∈ stats, m ∈ s.completedIssues := by
  intro m hm
  by_cases hc : canCredit primary a.login = true
  · have he' : e ∈ creditUser (ensureUser stats a.login a.avatar_url a.html_url)
        a.login num t := by
      simpa [creditAssignee, hc] using he
    rcases prov_creditUser he' m hm with h | ⟨s, hs, hms⟩
    · exact Or.inl h
    · exact Or.inr (prov_ensureUser hs m hms)
  · have he' : e ∈ ensureUser stats a.login a.avatar_url a.html_url := by
      simpa [creditAssignee, hc] using he
    exact Or.inr (prov_ensureUser he' m hm)

theorem prov_foldAssignees {primary : Option User} {num t : Nat} :
    ∀ (l : List User) (stats : List UserStat) (e : UserStat),
      e ∈ l.foldl (creditAssignee primary num t) stats →
      ∀ m ∈ e.completedIssues, m = num ∨ ∃ s ∈ stats, m ∈ s.completedIssues := by
  intro l
  induction l with
  | nil =>
      intro stats e he m hm
      exact Or.inr ⟨e, by simpa using he, hm⟩
  | cons a rest ih =>
      intro stats e he m hm
      rw [List.foldl_cons] at he
      rcases ih _ e he m hm with h | ⟨s, hs, hms⟩
      · exact Or.inl h
      · rcases prov_creditAssignee hs m hms with h | h
        · exact Or.inl h
        · exact Or.inr h

theorem prov_creditPrimary {stats : List UserStat} {issue : Issue} {e : UserStat}
    (he : e ∈ creditPrimary stats issue) :
    ∀ m ∈ e.completedIssues, m = issue.number ∨ ∃ s ∈ stats, m ∈ s.completedIssues := by
  intro m hm
  cases hass : issue.assignee with
  | none =>
      simp only [creditPrimary, hass] at he
      exact Or.inr ⟨e, he, hm⟩
  | some p =>
      simp only [creditPrimary, hass] at he
      rcases prov_creditUser he m hm with h | ⟨s, hs, hms⟩
      · exact Or.inl h
      · exact Or.inr (prov_ensureUser hs m hms)

theorem prov_leaderboardStep {stats : List UserStat} {c : Nat} {issue : Issue}
    {e : UserStat} (he : e ∈ (leaderboardStep (stats, c) issue).1) :
    ∀ m ∈ e.completedIssues, m = issue.number ∨ ∃ s ∈ stats, m ∈ s.completedIssues := by
  intro m hm
  by_cases ha : hasAssignees issue = true
  · rw [leaderboardStep, if_pos ha] at he
    simp only at he
    rcases prov_foldAssignees _ _ e he m hm with h | ⟨s, hs, hms⟩
    · exact Or.inl h
    · rcases prov_creditPrimary hs m hms with h | h
      · exact Or.inl h
      · exact Or.inr h
  · rw [leaderboardStep, if_neg ha] at he
    exact Or.inr ⟨e, he, hm⟩

theorem fold_good :
    ∀ (issues : List Issue) (stats : List UserStat) (c : Nat),
      (issues.map Issue.number).Nodup →
      (∀ i ∈ issues, (i.assignees.map User.login).Nodup) →
      (∀ e ∈ stats, goodStat e) →
      (∀ e ∈ stats, ∀ i ∈ issues, i.number ∉ e.completedIssues) →
      ∀ e ∈ (issues.foldl leaderboardStep (stats, c)).1, goodStat e := by
  intro issues
  induction issues with
  | nil =>
      intro stats c _ _ hg _ e he
      exact hg e (by simpa using he)
  | cons i rest ih =>
      intro stats c hnum hass hg hforbid e he
      rw [List.foldl_cons] at he
      have hnum0 : i.number ∉ rest.map Issue.number ∧ (rest.map Issue.number).Nodup :=
        List.nodup_cons.1 (by simpa using hnum)
      refine ih (leaderboardStep (stats, c) i).1 (leaderboardStep (stats, c) i).2
        hnum0.2 (fun j hj => hass j (List.mem_cons_of_mem _ hj)) ?_ ?_ e he
      · exact leaderboardStep_good i stats c (hass i (List.mem_cons_self _ _))
          (fun e0 he0 => ⟨hg e0 he0, hforbid e0 he0 i (List.mem_cons_self _ _)⟩)
      · intro e0 he0 j hj hmem
        rcases prov_leaderboardStep he0 j.number hmem with hEq | ⟨s, hs, hms⟩
        · exact hnum0.1 (hEq ▸ List.mem_map_of_mem Issue.number hj)
        · exact hforbid s hs j (List.mem_cons_of_mem _ hj) hms

/-- Claim C2 counterexample: on the single-issue snapshot whose
`assignees` array lists the same login twice, the produced leaderboard
entry holds the issue number twice, refuting the claim as stated over
all input lists. -/
theorem C2_counterexample :
    ¬ (∀ e ∈ (calculateLeaderboard [issueDupAssignees] 0).leaderboard,
        e.completedCount = e.completedIssues.length ∧ e.completedIssues.Nodup) := by
  decide

/-- Claim C2 (amended): for every input list of closed issues with
pairwise-distinct issue numbers in which no issue repeats a login inside
its `assignees` array, every leaderboard entry satisfies
`completedCount = |completedIssues|` and its `completedIssues` list has
no duplicate. -/
theorem C2_leaderboard_invariants (issues : List Issue) (now : Nat)
    (hnum : (issues.map Issue.number).Nodup)
    (hass : ∀ i ∈ issues, (i.assignees.map User.login).Nodup) :
    ∀ e ∈ (calculateLeaderboard issues now).leaderboard,
      e.completedCount = e.completedIssues.length ∧ e.completedIssues.Nodup := by
  intro e he
  have he' : e ∈ (issues.foldl leaderboardStep ([], 0)).1 := by
    simp only [calculateLeaderboard] at he
    rwa [mem_sortBy] at he
  exact fold_good issues [] 0 hnum hass (by simp) (by simp) e he'

/-- Witness for C2 at a concrete well-formed two-issue snapshot,
specialised to its top entry. -/
theorem C2_leaderboard_invariants_witness :
    lbBob.completedCount = lbBob.completedIssues.length ∧ lbBob.completedIssues.Nodup :=
  C2_leaderboard_invariants demoClosedIssues 0 (by decide) (by decide) lbBob (by decide)

/-! ### Claim C5: identifier allocation -/

theorem lastEntry_cons_cons (a b : Nat) (t : List Nat) :
    lastEntry (a :: b :: t) = lastEntry (b :: t) := by
  simp [lastEntry, List.getD_cons_succ]

theorem le_lastEntry_of_mem : ∀ {U : List Nat}, U.Pairwise (· < ·) →
    ∀ x ∈ U, x ≤ lastEntry U := by
  intro U
  induction U with
  | nil => simp
  | cons a t ih =>
      intro hp x hx
      rcases List.mem_cons.1 hx with rfl | hx'
      · cases t with
        | nil => simp [lastEntry]
        | cons b t' =>
            rw [lastEntry_cons_cons]
            have hab : x < b := (List.pairwise_cons.1 hp).1 b (List.mem_cons_self _ _)
            have hbl := ih (List.pairwise_cons.1 hp).2 b (List.mem_cons_self _ _)
            omega
      · cases t with
        | nil => simp at hx'
        | cons b t' =>
            rw [lastEntry_cons_cons]
            exact ih (List.pairwise_cons.1 hp).2 x hx'

theorem scanGap_spec (U : List Nat) :
    ∀ (fuel i : Nat), (∃ m, i ≤ m ∧ m < i + fuel ∧ m ∉ U) →
      scanGap U i fuel ∉ U ∧ i ≤ scanGap U i fuel ∧
        ∀ m, i ≤ m → m < scanGap U i fuel → m ∈ U := by
  intro fuel
  induction fuel with
  | zero =>
      intro i hex
      obtain ⟨m, h1, h2, _⟩ := hex
      exact ((by omega : False)).elim
  | succ fuel ih =>
      intro i hex
      by_cases hi : i ∈ U
      · simp only [scanGap, if_pos hi]
        obtain ⟨m, h1, h2, h3⟩ := hex
        have hm : i + 1 ≤ m := by
          rcases Nat.eq_or_lt_of_le h1 with rfl | h
          · exact absurd hi h3
          · omega
        obtain ⟨r1, r2, r3⟩ := ih (i + 1) ⟨m, hm, by omega, h3⟩
        refine ⟨r1, by omega, fun m' hm1 hm2 => ?_⟩
        rcases Nat.eq_or_lt_of_le hm1 with rfl | h
        · exact hi
        · exact r3 m' h hm2
      · simp only [scanGap, if_neg hi]
        exact ⟨hi, le_refl i, fun m hm1 hm2 => absurd hm1 (by omega)⟩

/-- Claim C5: on a deduplicated ascending list of positive integers the
allocator returns the smallest positive integer not in the list — in
particular `1` on the empty list and `max(U) + 1` when there is no gap
below it — and the composed extraction-plus-allocation on the titles
2025-001, 2025-002, 2025-004 returns `3`. -/
theorem C5_next_identifier (U : List Nat) (hU : U.Pairwise (· < ·))
    (hpos : ∀ n ∈ U, 0 < n) :
    (calculateNextIdentifier U ∉ U ∧ 0 < calculateNextIdentifier U ∧
      ∀ m, 0 < m → m < calculateNextIdentifier U → m ∈ U) ∧
    (U = [] → calculateNextIdentifier U = 1) ∧
    ((∀ m, 0 < m → m ≤ lastEntry U → m ∈ U) →
      calculateNextIdentifier U = lastEntry U + 1) ∧
    calculateNextIdentifier (extractCertificateIdentifiers certDemoIssues) = 3 := by
  have hconc : calculateNextIdentifier (extractCertificateIdentifiers certDemoIssues) = 3 := by
    decide
  by_cases hU0 : U.isEmpty = true
  · have hnil : U = [] := by simpa [List.isEmpty_iff] using hU0
    subst hnil
    refine ⟨⟨by simp [calculateNextIdentifier], by simp [calculateNextIdentifier], ?_⟩,
      fun _ => rfl, fun _ => rfl, hconc⟩
    intro m hm1 hm2
    simp [calculateNextIdentifier] at hm2
    omega
  · have hne : U ≠ [] := fun h => by simp [h] at hU0
    have hrun : calculateNextIdentifier U = scanGap U 1 (lastEntry U + 1) := by
      rw [calculateNextIdentifier, if_neg hU0]
    have hlastnot : lastEntry U + 1 ∉ U := fun hmem =>
      absurd (le_lastEntry_of_mem hU _ hmem) (by omega)
    obtain ⟨r1, r2, r3⟩ := scanGap_spec U (lastEntry U + 1) 1
      ⟨lastEntry U + 1, by omega, by omega, hlastnot⟩
    rw [hrun]
    refine ⟨⟨r1, by omega, fun m hm1 hm2 => r3 m (by omega) hm2⟩,
      fun h => absurd h hne, fun hno => ?_, hconc⟩
    rcases Nat.lt_or_ge (scanGap U 1 (lastEntry U + 1)) (lastEntry U + 1) with hlt | hge
    · exact absurd (hno _ (by omega) (by omega)) r1
    · rcases Nat.eq_or_lt_of_le hge with h | h
      · omega
      · exact absurd (r3 (lastEntry U + 1) (by omega) h) hlastnot

/-- Witness for C5 at the concrete ascending list `[1, 2, 4]`. -/
theorem C5_next_identifier_witness :
    (calculateNextIdentifier [1, 2, 4] ∉ ([1, 2, 4] : List Nat) ∧
      0 < calculateNextIdentifier [1, 2, 4] ∧
      ∀ m, 0 < m → m < calculateNextIdentifier [1, 2, 4] → m ∈ ([1, 2, 4] : List Nat)) ∧
    (([1, 2, 4] : List Nat) = [] → calculateNextIdentifier [1, 2, 4] = 1) ∧
    ((∀ m, 0 < m → m ≤ lastEntry [1, 2, 4] → m ∈ ([1, 2, 4] : List Nat)) →
      calculateNextIdentifier [1, 2, 4] = lastEntry [1, 2, 4] + 1) ∧
    calculateNextIdentifier (extractCertificateIdentifiers certDemoIssues) = 3 :=
  C5_next_identifier [1, 2, 4] (by decide) (by decide)

/-! ### Claim C8: a failing page turns the whole fetch into an error -/

theorem fetchErr_aux (pages : Nat → Except Nat (List Issue)) (perPage s : Nat) :
    ∀ (fuel page : Nat) (acc : List Issue) (p : Nat),
      page ≤ p → p < page + fuel →
      (∀ q, page ≤ q → q < p →
        ∃ l, pages q = Except.ok l ∧ l.length = perPage ∧ l ≠ []) →
      pages p = Except.error s →
      (fetchPagesAux pages perPage page fuel acc).2 = Except.error s := by
  intro fuel
  induction fuel with
  | zero =>
      intro page acc p h1 h2 _ _
      exact ((by omega : False)).elim
  | succ fuel ih =>
      intro page acc p h1 h2 hfull herr
      rcases Nat.eq_or_lt_of_le h1 with rfl | hlt
      · simp only [fetchPagesAux, herr]
      · obtain ⟨l, hq, hlen, hne⟩ := hfull page (le_refl _) hlt
        have h0 : ¬ l.length = 0 := by simpa using hne
        have h4 : ¬ l.length < perPage := by omega
        simp only [fetchPagesAux, hq, if_neg h0, if_neg h4]
        exact ih (page + 1) (acc ++ l) p hlt (by omega)
          (fun q hq1 hq2 => hfull q (by omega) hq2) herr

/-- Claim C8: if the pages before `p` were full and page `p` answers
with a non-success status `s`, the whole paginated fetch returns the
error carrying `s` and none of the previously fetched pages — mirroring
the `throw` that discards the accumulated `allIssues` array. -/
theorem C8_error_propagation (pages : Nat → Except Nat (List Issue))
    (perPage maxPages p s : Nat) (hp1 : 1 ≤ p) (hpmax : p ≤ maxPages)
    (hfull : ∀ q, 1 ≤ q → q < p →
      ∃ l, pages q = Except.ok l ∧ l.length = perPage ∧ l ≠ [])
    (herr : pages p = Except.error s) :
    fetchClosedBuddyExchangeIssues pages perPage maxPages = Except.error s :=
  fetchErr_aux pages perPage s maxPages 1 [] p hp1 (by omega) hfull herr

/-- Witness for C8: page 1 full, page 2 a 403 response. -/
theorem C8_error_propagation_witness :
    fetchClosedBuddyExchangeIssues demoPages 2 5 = Except.error 403 :=
  C8_error_propagation demoPages 2 5 2 403 (by omega) (by omega)
    (fun q h1 h2 => by
      have hq : q = 1 := by omega
      subst hq
      exact ⟨[authoredOpen userCarol 31, authoredOpen userCarol 32], rfl, rfl, by simp⟩)
    rfl

/-! ### Claim C9: the pagination loop requests pages 1, 2, ... and stops -/

theorem fetchTrace_aux (pages : Nat → Except Nat (List Issue)) (perPage : Nat) :
    ∀ (fuel page : Nat) (acc : List Issue),
      ∃ k, k ≤ fuel ∧
        (fetchPagesAux pages perPage page fuel acc).1 = List.range' page k ∧
        (∀ p, page ≤ p → p + 1 < page + k →
          ∃ l, pages p = Except.ok l ∧ perPage ≤ l.length ∧ l ≠ []) ∧
        (k < fuel → 1 ≤ k ∧
          ((∃ s, pages (page + k - 1) = Except.error s) ∨
            ∃ l, pages (page + k - 1) = Except.ok l ∧
              (l = [] ∨ l.length < perPage))) := by
  intro fuel
  induction fuel with
  | zero =>
      intro page acc
      exact ⟨0, le_refl 0, rfl, fun p h1 h2 => ((by omega : False)).elim,
        fun h => ((by omega : False)).elim⟩
  | succ fuel ih =>
      intro page acc
      have hpg : page + 1 - 1 = page := by omega
      cases hq : pages page with
      | error s =>
          refine ⟨1, by omega, ?_, fun p h1 h2 => ((by omega : False)).elim,
            fun _ => ⟨le_refl 1, ?_⟩⟩
          · simp [fetchPagesAux, hq, List.range']
          · rw [hpg]
            exact Or.inl ⟨s, hq⟩
      | ok l =>
          by_cases h0 : l.length = 0
          · have h0' : l = [] := List.length_eq_zero.mp h0
            subst h0'
            refine ⟨1, by omega, ?_, fun p h1 h2 => ((by omega : False)).elim,
              fun _ => ⟨le_refl 1, ?_⟩⟩
            · simp [fetchPagesAux, hq, List.range']
            · rw [hpg]
              exact Or.inr ⟨[], hq, Or.inl rfl⟩
          · have h0' : l ≠ [] := fun hl => h0 (by simp [hl])
            by_cases h4 : l.length < perPage
            · refine ⟨1, by omega, ?_, fun p h1 h2 => ((by omega : False)).elim,
                fun _ => ⟨le_refl 1, ?_⟩⟩
              · simp [fetchPagesAux, hq, h0', h4, List.range']
              · rw [hpg]
                exact Or.inr ⟨l, hq, Or.inr h4⟩
            · obtain ⟨k, hk, htr, hfull, hstop⟩ := ih (page + 1) (acc ++ l)
              refine ⟨k + 1, by omega, ?_, ?_, ?_⟩
              · rw [List.range'_succ]
                simp only [fetchPagesAux, hq, if_neg h0, if_neg h4]
                rw [← htr]
              · intro p h1 h2
                rcases Nat.eq_or_lt_of_le h1 with rfl | hlt
                · exact ⟨l, hq, by omega, fun hl => h0 (by simp [hl])⟩
                · exact hfull p hlt (by omega)
              · intro hlt
                obtain ⟨hk1, hst⟩ := hstop (by omega)
                refine ⟨by omega, ?_⟩
                have harith : page + (k + 1) - 1 = page + 1 + k - 1 := by omega
                rw [harith]
                exact hst

theorem fetchScenario_aux (pages : Nat → Except Nat (List Issue)) (perPage n : Nat)
    (hpp : 0 < perPage)
    (hfull : ∀ p, 1 ≤ p → p ≤ n → ∃ l, pages p = Except.ok l ∧ l.length = perPage)
    (hempty : pages (n + 1) = Except.ok []) :
    ∀ (fuel page : Nat) (acc : List Issue),
      1 ≤ page → page ≤ n + 1 → n + 1 < page + fuel →
      (fetchPagesAux pages perPage page fuel acc).1 = List.range' page (n + 2 - page) := by
  intro fuel
  induction fuel with
  | zero =>
      intro page acc h1 h2 h3
      exact ((by omega : False)).elim
  | succ fuel ih =>
      intro page acc h1 h2 h3
      rcases Nat.eq_or_lt_of_le h2 with heq | hlt
      · subst heq
        simp only [fetchPagesAux, hempty]
        have hone : n + 2 - (n + 1) = 1 := by omega
        rw [hone]
        simp [List.range']
      · obtain ⟨l, hq, hlen⟩ := hfull page h1 (by omega)
        have h0 : ¬ l.length = 0 := by omega
        have h4 : ¬ l.length < perPage := by omega
        simp only [fetchPagesAux, hq, if_neg h0, if_neg h4]
        have hsplit : n + 2 - page = (n + 2 - (page + 1)) + 1 := by omega
        rw [hsplit, List.range'_succ]
        rw [ih (page + 1) (acc ++ l) (by omega) (by omega) (by omega)]

/-- Claim C9: the pagination loop requests exactly the consecutive pages
`1, 2, ..., k` in order with `k ≤ maxPages` (so it terminates and never
requests a page beyond `maxPages`); every requested page except the last
was full and non-empty, and whenever the loop gives up below the
`maxPages` ceiling, its last request really was a stopping page (an
error, an empty page, or fewer than `perPage` issues) — so the loop
stops immediately after such a page and only after one.  In particular,
when pages `1..n` are full and page `n + 1` is empty, the loop requests
pages `1..n + 1`: the empty page is requested and is the final
request. -/
theorem C9_pagination_trace (pages : Nat → Except Nat (List Issue))
    (perPage maxPages : Nat) :
    (∃ k, k ≤ maxPages ∧
      fetchRequestedPages pages perPage maxPages = List.range' 1 k ∧
      (∀ p, 1 ≤ p → p < k →
        ∃ l, pages p = Except.ok l ∧ perPage ≤ l.length ∧ l ≠ []) ∧
      (k < maxPages → 1 ≤ k ∧
        ((∃ s, pages k = Except.error s) ∨
          ∃ l, pages k = Except.ok l ∧ (l = [] ∨ l.length < perPage)))) ∧
    (∀ n, 0 < perPage → n + 1 ≤ maxPages →
      (∀ p, 1 ≤ p → p ≤ n → ∃ l, pages p = Except.ok l ∧ l.length = perPage) →
      pages (n + 1) = Except.ok [] →
      fetchRequestedPages pages perPage maxPages = List.range' 1 (n + 1)) := by
  constructor
  · obtain ⟨k, hk, htr, hfull, hstop⟩ := fetchTrace_aux pages perPage maxPages 1 []
    refine ⟨k, hk, htr, fun p h1 h2 => hfull p h1 (by omega), fun hlt => ?_⟩
    obtain ⟨hk1, hst⟩ := hstop hlt
    have hone : 1 + k - 1 = k := by omega
    rw [hone] at hst
    exact ⟨hk1, hst⟩
  · intro n hpp hnm hfull hempty
    have h := fetchScenario_aux pages perPage n hpp hfull hempty maxPages 1 []
      (le_refl 1) (by omega) (by omega)
    have hone : n + 2 - 1 = n + 1 := by omega
    rw [hone] at h
    exact h

/-! ### Claim C7: buddy report entries -/

/-- Claim C7: every buddy report entry has
`ratio = receivedChecks / max(conductedChecks, 1)` and
`deficit = receivedChecks - conductedChecks`, and only users with
`receivedChecks > 0` appear; on the concrete snapshot where alice
authored three issues conducting none and bob authored two conducting
two, the report lists alice with ratio 3 and deficit 3, then bob with
ratio 1 and deficit 0. -/
theorem C7_buddy_ratio (issues : List Issue) (now : Nat) :
    (∀ e ∈ (calculateBuddyRatios issues now).allRecipients,
        e.ratio = (e.receivedChecks : Rat) / ((max e.conductedChecks 1 : Nat) : Rat) ∧
        e.deficit = (e.receivedChecks : Int) - (e.conductedChecks : Int) ∧
        0 < e.receivedChecks) ∧
    ((calculateBuddyRatios demoBuddyIssues 0).allRecipients.map
        fun e => (e.username, e.ratio, e.deficit))
      = [("alice", 3, 3), ("bob", 1, 0)] := by
  constructor
  · intro e he
    simp only [calculateBuddyRatios] at he
    rw [mem_sortBy] at he
    simp only [List.mem_map, List.mem_filter] at he
    obtain ⟨s, ⟨_, hpos⟩, rfl⟩ := he
    exact ⟨rfl, rfl, by simpa using hpos⟩
  · have h : demoBuddyIssues.foldl conductedStep (demoBuddyIssues.foldl receivedStep [])
        = [statAlice, statBob] := by decide
    simp only [calculateBuddyRatios, h]
    norm_num [statAlice, statBob, toRecipient, sortBy, insertBy, ratioDescLe]

/-! ### Claim C6: first-matching-pattern extraction -/

theorem firstPatMatches_cases :
    ∀ (pats : List Pat) (title : List Char),
      (firstPatMatches pats title = [] ∧ ∀ p ∈ pats, scanPat p title = []) ∨
      ∃ i : Fin pats.length,
        (∀ j : Fin pats.length, j < i → scanPat (pats.get j) title = []) ∧
        scanPat (pats.get i) title ≠ [] ∧
        firstPatMatches pats title
          = (scanPat (pats.get i) title).filterMap keepNumber := by
  intro pats
  induction pats with
  | nil =>
      intro title
      exact Or.inl ⟨rfl, by simp⟩
  | cons p ps ih =>
      intro title
      by_cases hp : scanPat p title = []
      · rcases ih title with ⟨h1, h2⟩ | ⟨i, hlt, hne, heq⟩
        · refine Or.inl ⟨?_, ?_⟩
          · simp [firstPatMatches, hp, h1]
          · intro q hq
            rcases List.mem_cons.1 hq with rfl | hq'
            · exact hp
            · exact h2 q hq'
        · refine Or.inr ⟨i.succ, ?_, ?_, ?_⟩
          · intro j hj
            rcases Fin.eq_zero_or_eq_succ j with rfl | ⟨j', rfl⟩
            · simpa using hp
            · have hj' : j' < i := by
                simpa [Fin.succ_lt_succ_iff] using hj
              simpa using hlt j' hj'
          · simpa using hne
          · have : firstPatMatches (p :: ps) title = firstPatMatches ps title := by
              simp [firstPatMatches, hp]
            rw [this, heq]
            simp
      · refine Or.inr ⟨⟨0, by simp⟩, ?_, ?_, ?_⟩
        · intro j hj
          exact absurd hj (by simp [Fin.lt_def])
        · simpa using hp
        · have hne : (scanPat p title).isEmpty = false := by
            simpa using hp
          simp [firstPatMatches, hne]

theorem mem_scanPatAux {p : Pat} :
    ∀ {fuel : Nat} {cs m : List Char}, m ∈ scanPatAux p fuel cs →
      ∃ t : List Char, matchesAt p t = true ∧ m = t.take p.len := by
  intro fuel
  induction fuel with
  | zero =>
      intro cs m hm
      simp [scanPatAux] at hm
  | succ fuel ih =>
      intro cs m hm
      cases cs with
      | nil => simp [scanPatAux] at hm
      | cons c rest =>
          by_cases hmt : matchesAt p (c :: rest) = true
          · rw [scanPatAux, if_pos hmt] at hm
            rcases List.mem_cons.1 hm with rfl | hm'
            · exact ⟨c :: rest, hmt, rfl⟩
            · exact ih hm'
          · rw [scanPatAux, if_neg hmt] at hm
            exact ih hm

theorem scanPat_dashed_shape {k : Nat} {title m : List Char}
    (hm : m ∈ scanPat (Pat.dashed k) title) :
    ∃ y s, m = y ++ '-' :: s ∧ y.length = 4 ∧ s.length = k ∧
      allDigits y = true ∧ allDigits s = true := by
  obtain ⟨t, hmt, rfl⟩ := mem_scanPatAux hm
  simp only [matchesAt, Bool.and_eq_true, decide_eq_true_eq, beq_iff_eq] at hmt
  obtain ⟨⟨⟨hlen, hd4⟩, hdash⟩, hdk⟩ := hmt
  have h4 : 4 < t.length := by omega
  refine ⟨t.take 4, (t.drop 5).take k, ?_, ?_, ?_, hd4, hdk⟩
  · have hsplit : Pat.len (Pat.dashed k) = 4 + (1 + k) := by
      simp [Pat.len]
      omega
    rw [hsplit, List.take_add]
    have hdrop : t.drop 4 = t[4] :: t.drop 5 := List.drop_eq_getElem_cons h4
    have hget : t[4] = '-' := by
      rw [← List.getD_eq_getElem t ' ' h4]
      exact hdash
    rw [hdrop, hget]
    have h1k : 1 + k = k + 1 := by omega
    rw [h1k, List.take_succ_cons]
  · simp [List.length_take]
    omega
  · simp [List.length_take, List.length_drop]
    omega

theorem scanPat_bare_shape {k : Nat} {title m : List Char}
    (hm : m ∈ scanPat (Pat.bare k) title) :
    m.length = k ∧ allDigits m = true := by
  obtain ⟨t, hmt, rfl⟩ := mem_scanPatAux hm
  simp only [matchesAt, Bool.and_eq_true, decide_eq_true_eq] at hmt
  obtain ⟨hlen, hd⟩ := hmt
  constructor
  · simp [Pat.len, List.length_take]
    omega
  · simpa [Pat.len] using hd

theorem takeWhile_all {p : Char → Bool} :
    ∀ l : List Char, (∀ c ∈ l, p c = true) → l.takeWhile p = l := by
  intro l
  induction l with
  | nil => simp
  | cons c t ih =>
      intro h
      rw [List.takeWhile_cons, if_pos (h c (List.mem_cons_self _ _)),
        ih (fun x hx => h x (List.mem_cons_of_mem _ hx))]

theorem dropWhile_all_append {p : Char → Bool} :
    ∀ (y l : List Char), (∀ c ∈ y, p c = true) → (y ++ l).dropWhile p = l.dropWhile p := by
  intro y
  induction y with
  | nil => simp
  | cons c t ih =>
      intro l h
      rw [List.cons_append, List.dropWhile_cons, if_pos (h c (List.mem_cons_self _ _))]
      exact ih l (fun x hx => h x (List.mem_cons_of_mem _ hx))

theorem parseIntOpt_digits {l : List Char} (hd : allDigits l = true) :
    parseIntOpt l = if l.isEmpty then none else some (digitsToNat l) := by
  simp only [parseIntOpt]
  rw [takeWhile_all l (List.all_eq_true.1 hd)]

theorem digit_ne_dash {c : Char} (h : c.isDigit = true) : c ≠ '-' := by
  intro hc
  subst hc
  exact absurd h (by decide)

theorem keepNumber_dashed {y s : List Char}
    (hyd : allDigits y = true) (hsd : allDigits s = true) :
    keepNumber (y ++ '-' :: s)
      = if 0 < digitsToNat s ∧ digitsToNat s < 10000
        then some (digitsToNat s) else none := by
  have hmem : '-' ∈ y ++ '-' :: s := by simp
  have hafter : afterDash (y ++ '-' :: s) = s := by
    rw [afterDash, dropWhile_all_append y ('-' :: s)
      (fun c hc => by
        simpa [bne_iff_ne] using digit_ne_dash (List.all_eq_true.1 hyd c hc))]
    rw [List.dropWhile_cons]
    simp
  rw [keepNumber, extractedNumber, if_pos hmem, hafter, parseIntOpt_digits hsd]
  by_cases hs0 : s.isEmpty = true
  · have : s = [] := by simpa [List.isEmpty_iff] using hs0
    subst this
    simp [digitsToNat]
  · rw [if_neg hs0]
    by_cases hn : 0 < digitsToNat s ∧ digitsToNat s < 10000
    · rw [if_pos hn]
      simp [hn.1, hn.2]
    · rw [if_neg hn]
      simp only []
      rw [if_neg (by simpa [Bool.and_eq_true, decide_eq_true_eq] using hn)]

theorem keepNumber_bare {m : List Char} (hd : allDigits m = true) :
    keepNumber m
      = if 0 < digitsToNat m ∧ digitsToNat m < 10000
        then some (digitsToNat m) else none := by
  have hnom : '-' ∉ m := fun hmem =>
    digit_ne_dash (List.all_eq_true.1 hd '-' hmem) rfl
  rw [keepNumber, extractedNumber, if_neg hnom, parseIntOpt_digits hd]
  by_cases hm0 : m.isEmpty = true
  · have : m = [] := by simpa [List.isEmpty_iff] using hm0
    subst this
    simp [digitsToNat]
  · rw [if_neg hm0]
    by_cases hn : 0 < digitsToNat m ∧ digitsToNat m < 10000
    · rw [if_pos hn]
      simp [hn.1, hn.2]
    · rw [if_neg hn]
      simp only []
      rw [if_neg (by simpa [Bool.and_eq_true, decide_eq_true_eq] using hn)]

/-- Claim C6: identifier extraction tries the six patterns in strict
priority order and, at the first pattern matching anywhere in the title,
keeps every match of that single pattern and no weaker one; a dashed
match decomposes as four digits, a dash and a digit suffix whose value is
taken, a bare match is an all-digit run whose own value is taken, and a
value outside the open interval (0, 10000) is discarded. -/
theorem C6_extraction_priority (title : List Char) :
    ((firstPatMatches patterns title = [] ∧ ∀ p ∈ patterns, scanPat p title = []) ∨
      ∃ i : Fin patterns.length,
        (∀ j : Fin patterns.length, j < i → scanPat (patterns.get j) title = []) ∧
        scanPat (patterns.get i) title ≠ [] ∧
        firstPatMatches patterns title
          = (scanPat (patterns.get i) title).filterMap keepNumber) ∧
    (∀ k m, m ∈ scanPat (Pat.dashed k) title →
      ∃ y s, m = y ++ '-' :: s ∧ y.length = 4 ∧ s.length = k ∧
        allDigits y = true ∧ allDigits s = true ∧
        keepNumber m = if 0 < digitsToNat s ∧ digitsToNat s < 10000
          then some (digitsToNat s) else none) ∧
    (∀ k m, m ∈ scanPat (Pat.bare k) title →
      m.length = k ∧ allDigits m = true ∧
      keepNumber m = if 0 < digitsToNat m ∧ digitsToNat m < 10000
        then some (digitsToNat m) else none) := by
  refine ⟨firstPatMatches_cases patterns title, ?_, ?_⟩
  · intro k m hm
    obtain ⟨y, s, rfl, hy, hs, hyd, hsd⟩ := scanPat_dashed_shape hm
    exact ⟨y, s, rfl, hy, hs, hyd, hsd, keepNumber_dashed hyd hsd⟩
  · intro k m hm
    obtain ⟨hl, hd⟩ := scanPat_bare_shape hm
    exact ⟨hl, hd, keepNumber_bare hd⟩

/-! ### Claim C10: the extracted identifier list is strictly ascending
and in range, the shape `calculateNextIdentifier` relies on -/

theorem insertBy_sorted (le : α → α → Bool)
    (htrans : ∀ a b c, le a b = true → le b c = true → le a c = true)
    (htotal : ∀ a b, le a b = true ∨ le b a = true) (a : α) :
    ∀ l : List α, l.Pairwise (fun x y => le x y = true) →
      (insertBy le a l).Pairwise (fun x y => le x y = true) := by
  intro l
  induction l with
  | nil => simp [insertBy]
  | cons b t ih =>
      intro hp
      by_cases h : le a b = true
      · rw [insertBy, if_pos h]
        refine List.pairwise_cons.2 ⟨?_, hp⟩
        intro x hx
        rcases List.mem_cons.1 hx with rfl | hx'
        · exact h
        · exact htrans a b x h ((List.pairwise_cons.1 hp).1 x hx')
      · rw [insertBy, if_neg h]
        refine List.pairwise_cons.2 ⟨?_, ih (List.pairwise_cons.1 hp).2⟩
        intro x hx
        rcases (mem_insertBy le a x t).1 hx with rfl | hx'
        · rcases htotal x b with h1 | h1
          · exact absurd h1 h
          · exact h1
        · exact (List.pairwise_cons.1 hp).1 x hx'

theorem sortBy_sorted (le : α → α → Bool)
    (htrans : ∀ a b c, le a b = true → le b c = true → le a c = true)
    (htotal : ∀ a b, le a b = true ∨ le b a = true) :
    ∀ l : List α, (sortBy le l).Pairwise (fun x y => le x y = true) := by
  intro l
  induction l with
  | nil => simp [sortBy]
  | cons a t ih => exact insertBy_sorted le htrans htotal a _ ih

theorem nodup_insertBy (le : α → α → Bool) (a : α) :
    ∀ l : List α, (a :: l).Nodup → (insertBy le a l).Nodup := by
  intro l
  induction l with
  | nil =>
      intro _
      simp [insertBy]
  | cons b t ih =>
      intro h
      obtain ⟨hab, hbt⟩ := List.nodup_cons.1 h
      obtain ⟨hb, ht⟩ := List.nodup_cons.1 hbt
      by_cases hle : le a b = true
      · rw [insertBy, if_pos hle]
        exact List.nodup_cons.2 ⟨hab, hbt⟩
      · rw [insertBy, if_neg hle]
        refine List.nodup_cons.2 ⟨fun hc => ?_, ?_⟩
        · rcases (mem_insertBy le a b t).1 hc with rfl | hc'
          · exact hab (List.mem_cons_self _ _)
          · exact hb hc'
        · exact ih (List.nodup_cons.2
            ⟨fun hc => hab (List.mem_cons_of_mem _ hc), ht⟩)

theorem nodup_sortBy (le : α → α → Bool) :
    ∀ l : List α, l.Nodup → (sortBy le l).Nodup := by
  intro l
  induction l with
  | nil => simp [sortBy]
  | cons a t ih =>
      intro h
      obtain ⟨hat, ht⟩ := List.nodup_cons.1 h
      refine nodup_insertBy le a _ (List.nodup_cons.2 ⟨?_, ih ht⟩)
      intro hc
      exact hat ((mem_sortBy le a t).1 hc)

theorem mem_dedupFirst :
    ∀ (l seen : List Nat) (x : Nat),
      x ∈ dedupFirst seen l ↔ x ∈ l ∧ x ∉ seen := by
  intro l
  induction l with
  | nil =>
      intro seen x
      simp [dedupFirst]
  | cons a t ih =>
      intro seen x
      by_cases h : a ∈ seen
      · rw [dedupFirst, if_pos h, ih]
        constructor
        · rintro ⟨hx, hs⟩
          exact ⟨List.mem_cons_of_mem _ hx, hs⟩
        · rintro ⟨hx, hs⟩
          rcases List.mem_cons.1 hx with rfl | hx'
          · exact absurd h hs
          · exact ⟨hx', hs⟩
      · rw [dedupFirst, if_neg h]
        constructor
        · intro hx
          rcases List.mem_cons.1 hx with rfl | hx'
          · exact ⟨List.mem_cons_self _ _, h⟩
          · obtain ⟨h1, h2⟩ := (ih (a :: seen) x).1 hx'
            exact ⟨List.mem_cons_of_mem _ h1,
              fun hc => h2 (List.mem_cons_of_mem _ hc)⟩
        · rintro ⟨hx, hs⟩
          by_cases hxa : x = a
          · exact hxa ▸ List.mem_cons_self _ _
          · rcases List.mem_cons.1 hx with rfl | hx'
            · exact absurd rfl hxa
            · refine List.mem_cons_of_mem _ ((ih (a :: seen) x).2 ⟨hx', ?_⟩)
              intro hc
              rcases List.mem_cons.1 hc with rfl | hc'
              · exact hxa rfl
              · exact hs hc'

theorem nodup_dedupFirst : ∀ (l seen : List Nat), (dedupFirst seen l).Nodup := by
  intro l
  induction l with
  | nil =>
      intro seen
      simp [dedupFirst]
  | cons a t ih =>
      intro seen
      by_cases h : a ∈ seen
      · rw [dedupFirst, if_pos h]
        exact ih seen
      · rw [dedupFirst, if_neg h]
        refine List.nodup_cons.2 ⟨fun hc => ?_, ih (a :: seen)⟩
        exact ((mem_dedupFirst t (a :: seen) a).1 hc).2 (List.mem_cons_self _ _)

theorem keepNumber_range {m : List Char} {n : Nat}
    (h : keepNumber m = some n) : 0 < n ∧ n < 10000 := by
  rw [keepNumber] at h
  split at h
  · rename_i n' heq
    split at h
    · rename_i hc
      cases h
      simpa [Bool.and_eq_true, decide_eq_true_eq] using hc
    · exact Option.noConfusion h
  · exact Option.noConfusion h

theorem mem_firstPatMatches :
    ∀ {pats : List Pat} {title : List Char} {n : Nat},
      n ∈ firstPatMatches pats title → ∃ m, keepNumber m = some n := by
  intro pats
  induction pats with
  | nil =>
      intro title n h
      simp [firstPatMatches] at h
  | cons p ps ih =>
      intro title n h
      simp only [firstPatMatches] at h
      by_cases hp : (scanPat p title).isEmpty = true
      · rw [if_pos hp] at h
        exact ih h
      · rw [if_neg hp] at h
        obtain ⟨m, _, hm⟩ := List.mem_filterMap.1 h
        exact ⟨m, hm⟩

/-- Claim C10: for every issue list, `extractCertificateIdentifiers`
returns a strictly increasing list (ascending, duplicate-free) whose
elements all lie strictly between 0 and 10000 — the
ordered-deduplicated-positive shape `calculateNextIdentifier` relies
on. -/
theorem C10_extraction_invariant (issues : List Issue) :
    (extractCertificateIdentifiers issues).Pairwise (· < ·) ∧
    ∀ n ∈ extractCertificateIdentifiers issues, 0 < n ∧ n < 10000 := by
  have htrans : ∀ a b c : Nat, natLe a b = true → natLe b c = true → natLe a c = true := by
    intro a b c h1 h2
    simp only [natLe, decide_eq_true_eq] at h1 h2 ⊢
    omega
  have htotal : ∀ a b : Nat, natLe a b = true ∨ natLe b a = true := by
    intro a b
    simp only [natLe, decide_eq_true_eq]
    omega
  constructor
  · have hs := sortBy_sorted natLe htrans htotal
      (dedupFirst [] ((issues.map fun issue => firstPatMatches patterns issue.title).flatten))
    have hnd : (extractCertificateIdentifiers issues).Nodup :=
      nodup_sortBy natLe _ (nodup_dedupFirst _ [])
    have hcomb := List.Pairwise.and hs hnd
    refine hcomb.imp ?_
    intro a b hab
    obtain ⟨h1, h2⟩ := hab
    simp only [natLe, decide_eq_true_eq] at h1
    omega
  · intro n hn
    simp only [extractCertificateIdentifiers] at hn
    rw [mem_sortBy] at hn
    have hn' := ((mem_dedupFirst _ [] n).1 hn).1
    rw [List.mem_flatten] at hn'
    obtain ⟨ms, hms, hnms⟩ := hn'
    rw [List.mem_map] at hms
    obtain ⟨i, _, rfl⟩ := hms
    obtain ⟨m, hm⟩ := mem_firstPatMatches hnms
    exact keepNumber_range hm

end BuddyExchange
